import Mathlib

set_option maxRecDepth 8000

/-!
Verification of the intraday live-market-data synchronization core of the
stock-market dashboard frontend.

The embedded units are:

* `computeTodayWindow` / `useTodayWindow` (src/lib/hooks/useMLPrediction.ts,
  lines 46–99): the session-window calculator for the NSE trading day in
  IST (UTC+5:30);
* `useLiveTicks` (the tick-stream client): websocket message validation,
  1-second throttling, bar synthesis and the 30,000-entry buffer cap;
* `useTodayLiveSeries` (src/lib/hooks/useMLPrediction.ts, lines 101–158):
  the backfill-and-merge coordinator — the `shouldRun` refetch decision,
  the backfill-response continuation, and the historical/live merge memo.

Modelling conventions:

* Instants are `Nat` milliseconds since the Unix epoch.  A bar's
  `timestamp` field is stored as an ISO string in the source and is only
  ever consumed through `new Date(ts).getTime()`; it is modelled by its
  denoted instant.
* Prices are JavaScript numbers; the merge and buffer logic never computes
  with them, so they are modelled as `ℚ` wrapped in `JsNumber`, which keeps
  the non-finite values (`NaN`, `±Infinity`) that the tick validator must
  reject.
* `Array.prototype.sort` with the consistent comparator
  `(a, b) => ta - tb` returns (per the ECMAScript spec) the stable sorted
  permutation of its input; `List.insertionSort`, which computes exactly
  that permutation, is used as its model.
* `Date.UTC`, `Date.prototype.toISOString` and the
  `Intl.DateTimeFormat('en-CA', { timeZone: 'Asia/Kolkata' })` date parts
  are host functions; they are modelled by the ECMAScript specification's
  own proleptic-Gregorian algorithms (DayFromYear, YearFromTime as a
  search, MonthFromTime via the cumulative month table), restricted to
  nonnegative epoch times and, where a textual year is produced, to years
  up to 9999 (the range in which `toISOString` uses the four-digit form).
-/

/-! ## Data model: bars -/

/-- One OHLCV sample (src/unnamed/part_000, `OHLCVBar`).  `timestamp` is the
denoted instant of the ISO string, in ms since the epoch; `volume` is
optional (`none` models both an absent field and the `null` the live client
writes). -/
structure OHLCVBar where
  timestamp : Nat
  open' : ℚ
  high : ℚ
  low : ℚ
  close : ℚ
  volume : Option ℚ
  deriving DecidableEq

/-- Timestamp order used by the merge comparator
`(a, b) => new Date(a.timestamp).getTime() - new Date(b.timestamp).getTime()`. -/
def tsLe (a b : OHLCVBar) : Prop := a.timestamp ≤ b.timestamp

instance : DecidableRel tsLe := fun a b => Nat.decLe a.timestamp b.timestamp

instance : IsTotal OHLCVBar tsLe := ⟨fun a b => Nat.le_total a.timestamp b.timestamp⟩

instance : IsTrans OHLCVBar tsLe := ⟨fun _ _ _ h h' => Nat.le_trans h h'⟩

/-- A bar series sorted by `timestamp` ascending. -/
def sortedByTs (l : List OHLCVBar) : Prop := List.Pairwise tsLe l

instance : DecidablePred sortedByTs := fun l => List.instDecidablePairwise l

/-- A series with pairwise distinct timestamps. -/
def dupFreeTs (l : List OHLCVBar) : Prop :=
  List.Pairwise (fun a b : OHLCVBar => a.timestamp ≠ b.timestamp) l

instance : DecidablePred dupFreeTs := fun l => List.instDecidablePairwise l

/-! ## Backfill-and-merge coordinator (`useTodayLiveSeries`) -/

/-- The `data` memo of `useTodayLiveSeries` (useMLPrediction.ts lines
147–155): `base` is `baseSeries || []`; when live mode is disabled, or the
live buffer is empty, `base` is returned as is; otherwise the
concatenation is sorted by timestamp. -/
def todayLiveData (enabled : Bool) (baseSeries : Option (List OHLCVBar))
    (livePoints : List OHLCVBar) : List OHLCVBar :=
  let base := baseSeries.getD []
  if !enabled then base
  else if livePoints.isEmpty then base
  else List.insertionSort tsLe (base ++ livePoints)

/-- The `lastBackfillRef` marker `{ symbol, key, atMs }` recorded when a
backfill is triggered (useMLPrediction.ts line 124). -/
structure BackfillMarker where
  symbol : String
  key : String
  atMs : Nat
  deriving DecidableEq

/-- The refetch decision of useMLPrediction.ts line 121:
`!last || last.symbol !== symbol || last.key !== window.key ||
(nowMs - last.atMs) > 60_000`.  In JavaScript a clock running backwards
makes the difference negative, hence `> 60_000` false; `Nat` subtraction
truncates to `0` with the same outcome. -/
def shouldRun (symbol key : String) (last : Option BackfillMarker) (nowMs : Nat) : Bool :=
  match last with
  | none => true
  | some l => l.symbol ≠ symbol || l.key ≠ key || decide (60000 < nowMs - l.atMs)

/-- Outcome of the awaited `marketDataApi.fetch` call: a response without an
`error` field, a response carrying one, or a thrown exception. -/
inductive BackfillResult where
  | success
  | apiError (e : String)
  | thrown (e : String)
  deriving DecidableEq

/-- The coordinator state observable after a backfill settles: the symbol
and session key that are current at that moment, the retained
`backfillError`, and how many times `refetchBase` has been invoked. -/
structure CoordState where
  currentSymbol : String
  currentKey : String
  backfillError : Option String
  refetchCount : Nat
  deriving DecidableEq

/-- The continuation the source runs when the backfill fetch settles
(useMLPrediction.ts lines 126–144): `setBackfillError` from the response,
then `await refetchBase()`.  `reqSymbol` and `reqKey` are the identifiers
captured when the request was issued; the closure never compares them with
the now-current symbol or session key, so they do not occur on the
right-hand side. -/
def applyBackfillResponse (reqSymbol reqKey : String) (resp : BackfillResult)
    (s : CoordState) : CoordState :=
  { s with
    backfillError :=
      match resp with
      | .success => none
      | .apiError e => some e
      | .thrown e => some e
    refetchCount := s.refetchCount + 1 }

/-! ## Live tick stream client (`useLiveTicks`, src/unnamed/part_014) -/

/-- A JavaScript number as seen by `Number.isFinite`: the value of
`typeof lpRaw === 'number' ? lpRaw : Number(lpRaw)`. -/
inductive JsNumber where
  | finite (q : ℚ)
  | nan
  | posInf
  | negInf
  deriving DecidableEq

/-- `Number.isFinite`. -/
def JsNumber.isFinite : JsNumber → Bool
  | .finite _ => true
  | _ => false

/-- One raw quote record; only `last_price` is consumed by the client. -/
structure Tick where
  last_price : JsNumber
  deriving DecidableEq

/-- A successfully parsed websocket payload (`TicksMessage` in
src/unnamed/part_014).  `received_at`, when it is a string, is modelled by
its denoted instant; `ticks := none` models an absent or non-array field
(`Array.isArray(msg.ticks) ? msg.ticks : []`). -/
structure TicksMessage where
  type_ : String
  received_at : Option Nat
  ticks : Option (List Tick)
  deriving DecidableEq

/-- A transport message as the `onmessage` handler sees it: data on which
`JSON.parse` throws, data parsing to a falsy value (`!msg`), or a parsed
object. -/
inductive WsMessage where
  | malformed
  | nullish
  | event (m : TicksMessage)
  deriving DecidableEq

/-- Mutable state of the tick client: `lastEmitMsRef` and `points`. -/
structure LiveTicksState where
  lastEmitMs : Nat
  points : List OHLCVBar
  deriving DecidableEq

/-- State right after (re)connecting (src/unnamed/part_014 lines 56–57). -/
def initLiveState : LiveTicksState := { lastEmitMs := 0, points := [] }

/-- The buffer cap of src/unnamed/part_014 line 103. -/
def MAX_POINTS : Nat := 30000

/-- The `setPoints` updater (src/unnamed/part_014 lines 98–106): append,
then `next.slice(next.length - MAX_POINTS)` — i.e. keep the last
`MAX_POINTS` entries — once the cap is exceeded. -/
def pushPoint (prev : List OHLCVBar) (bar : OHLCVBar) : List OHLCVBar :=
  let next := prev ++ [bar]
  if MAX_POINTS < next.length then next.drop (next.length - MAX_POINTS) else next

/-- The buffer contents after feeding a sequence of accepted bars into an
initially empty buffer. -/
def liveBuffer (bars : List OHLCVBar) : List OHLCVBar :=
  bars.foldl pushPoint []

/-- The degenerate bar synthesized from an accepted price
(src/unnamed/part_014 lines 89–96): open = high = low = close = price,
volume `null`. -/
def mkLiveBar (lp : ℚ) (ts : Nat) : OHLCVBar :=
  { timestamp := ts, open' := lp, high := lp, low := lp, close := lp, volume := none }

/-- The `onmessage` handler (src/unnamed/part_014 lines 65–107) as a state
transformer; `nowMs` is `Date.now()` at handling time.  Branches, in source
order: parse failure, falsy message, wrong `type`, empty `ticks`,
non-finite price, the 1-second throttle, and finally acceptance. -/
def onMessage (s : LiveTicksState) (nowMs : Nat) (msg : WsMessage) : LiveTicksState :=
  match msg with
  | .malformed => s
  | .nullish => s
  | .event m =>
    if m.type_ ≠ "ticks" then s
    else
      match m.ticks.getD [] with
      | [] => s
      | tick :: _ =>
        match tick.last_price with
        | .finite lp =>
          if nowMs - s.lastEmitMs < 1000 then s
          else
            { lastEmitMs := nowMs
              points := pushPoint s.points (mkLiveBar lp (m.received_at.getD nowMs)) }
        | _ => s

/-- Whether a message passes every validation branch and the throttle, so
that `onMessage` emits a bar. -/
def accepts (s : LiveTicksState) (nowMs : Nat) (msg : WsMessage) : Bool :=
  match msg with
  | .event m =>
    (m.type_ == "ticks") &&
      (match m.ticks.getD [] with
       | [] => false
       | tick :: _ => tick.last_price.isFinite && !(nowMs - s.lastEmitMs < 1000))
  | _ => false

/-- Run the handler over a timed message trace. -/
def runMessages (s : LiveTicksState) (trace : List (Nat × WsMessage)) : LiveTicksState :=
  trace.foldl (fun s p => onMessage s p.1 p.2) s

/-- The handling times at which a bar is emitted while running a trace. -/
def acceptTimes (s : LiveTicksState) : List (Nat × WsMessage) → List Nat
  | [] => []
  | (t, m) :: rest =>
    if accepts s t m then t :: acceptTimes (onMessage s t m) rest
    else acceptTimes (onMessage s t m) rest

/-- A well-formed single-tick message with a finite price. -/
def goodTickMsg : WsMessage :=
  .event { type_ := "ticks", received_at := none, ticks := some [{ last_price := .finite 1 }] }

/-- A trace of `n` well-formed tick messages spaced exactly 1000 ms apart,
starting at `t0`. -/
def evenTrace (t0 : Nat) : Nat → List (Nat × WsMessage)
  | 0 => []
  | n + 1 => (t0, goodTickMsg) :: evenTrace (t0 + 1000) n

/-! ## Session window calculator (`computeTodayWindow`)

The calendar arithmetic models the host's `Date.UTC`,
`Date.prototype.toISOString` and the `Asia/Kolkata` date parts of
`Intl.DateTimeFormat`, following the ECMAScript specification's
proleptic-Gregorian operations for nonnegative epoch times. -/

/-- Gregorian leap-year rule (ECMAScript `InLeapYear`). -/
def isLeap (y : Nat) : Bool := (y % 4 == 0 && y % 100 != 0) || y % 400 == 0

/-- ECMAScript `DaysInYear`. -/
def daysInYear (y : Nat) : Nat := if isLeap y then 366 else 365

/-- ECMAScript `DayFromYear` for years ≥ 1970 (the reachable range for
nonnegative epoch times). -/
def dayFromYear (y : Nat) : Nat :=
  365 * (y - 1970) + (y - 1969) / 4 - (y - 1901) / 100 + (y - 1601) / 400

/-- Fuel-driven search for the year containing epoch day `z` (ECMAScript
`YearFromTime`: the largest year whose first day is ≤ the given time). -/
def findYear (y : Nat) : Nat → Nat → Nat
  | 0, _ => y
  | fuel + 1, z => if dayFromYear (y + 1) ≤ z then findYear (y + 1) fuel z else y

/-- The year containing epoch day `z`. -/
def yearFromDay (z : Nat) : Nat := findYear 1970 (z + 1) z

/-- Days in the year before 1-based month `m` begins, in a common year
(the ECMAScript `MonthFromTime` / `DayWithinYear` cumulative table);
`m = 13` gives 365, the full year. -/
def monthBase : Nat → Nat
  | 1 => 0
  | 2 => 31
  | 3 => 59
  | 4 => 90
  | 5 => 120
  | 6 => 151
  | 7 => 181
  | 8 => 212
  | 9 => 243
  | 10 => 273
  | 11 => 304
  | 12 => 334
  | _ => 365

/-- Days in the year before 1-based month `m` begins, adjusted for leap
years (months after February shift by one). -/
def monthStart (m : Nat) (leap : Bool) : Nat :=
  monthBase m + (if 2 < m ∧ leap = true then 1 else 0)

/-- The 1-based month containing day-within-year `dwy` (ECMAScript
`MonthFromTime`). -/
def monthFromDwy (dwy : Nat) (leap : Bool) : Nat :=
  if dwy < monthStart 2 leap then 1
  else if dwy < monthStart 3 leap then 2
  else if dwy < monthStart 4 leap then 3
  else if dwy < monthStart 5 leap then 4
  else if dwy < monthStart 6 leap then 5
  else if dwy < monthStart 7 leap then 6
  else if dwy < monthStart 8 leap then 7
  else if dwy < monthStart 9 leap then 8
  else if dwy < monthStart 10 leap then 9
  else if dwy < monthStart 11 leap then 10
  else if dwy < monthStart 12 leap then 11
  else 12

/-- Epoch day number to Gregorian calendar date `(year, month, day)`,
1-based month and day (ECMAScript `YearFromTime` / `MonthFromTime` /
`DateFromTime`). -/
def civilFromDays (z : Nat) : Nat × Nat × Nat :=
  let y := yearFromDay z
  let dwy := z - dayFromYear y
  let m := monthFromDwy dwy (isLeap y)
  (y, m, dwy - monthStart m (isLeap y) + 1)

/-- Gregorian date to epoch day number (ECMAScript `MakeDay` for in-range
arguments, as `Date.UTC(y, m - 1, d, …)` computes it). -/
def daysFromCivil (y m d : Nat) : Nat :=
  dayFromYear y + monthStart m (isLeap y) + (d - 1)

/-- The fixed IST offset (+5:30) in milliseconds. -/
def IST_OFFSET_MS : Nat := 19800000

/-- Milliseconds per day. -/
def MS_PER_DAY : Nat := 86400000

/-- First instant of year 10000; below it `toISOString` renders a
four-digit year. -/
def ISO_MAX : Nat := 253402300800000

/-- The epoch day number of the IST calendar day containing instant
`nowMs` (what the `Intl.DateTimeFormat` call with
`timeZone: 'Asia/Kolkata'` determines). -/
def istDayNumber (nowMs : Nat) : Nat := (nowMs + IST_OFFSET_MS) / MS_PER_DAY

/-- The IST calendar date `(y, m, d)` extracted by the
`Intl.DateTimeFormat('en-CA', { timeZone: 'Asia/Kolkata', … })` parts in
`computeTodayWindow` (useMLPrediction.ts lines 48–57). -/
def istDate (nowMs : Nat) : Nat × Nat × Nat := civilFromDays (istDayNumber nowMs)

/-- `openUtcMs` of useMLPrediction.ts line 59:
`Date.UTC(y, m - 1, d, 3, 45, 0)` for the IST date — 03:45 UTC of that
calendar day. -/
def openUtcMs (nowMs : Nat) : Nat :=
  daysFromCivil (istDate nowMs).1 (istDate nowMs).2.1 (istDate nowMs).2.2 * MS_PER_DAY
    + 13500000

/-- The session-end instant: `new Date()` at computation time
(useMLPrediction.ts line 61). -/
def windowEndMs (nowMs : Nat) : Nat := nowMs

/-- The UTC instant of IST wall-clock time `hh:mi` on date `(y, m, d)`
(IST is a fixed +5:30 ahead of UTC). -/
def istWallToUtc (y m d hh mi : Nat) : Nat :=
  daysFromCivil y m d * MS_PER_DAY + hh * 3600000 + mi * 60000 - IST_OFFSET_MS

/-- Fixed-width decimal rendering: the `k` least-significant decimal digits
of `n`, most significant first (exactly the digits of `n` when
`n < 10 ^ k`). -/
def padDigits : Nat → Nat → List Char
  | 0, _ => []
  | k + 1, n => Nat.digitChar (n / 10 ^ k) :: padDigits k (n % 10 ^ k)

/-- The characters of `toISOString` output before the zone suffix:
`YYYY-MM-DDTHH:MM:SS.sss`. -/
def isoBody (ms : Nat) : List Char :=
  padDigits 4 (civilFromDays (ms / MS_PER_DAY)).1
    ++ '-' :: padDigits 2 (civilFromDays (ms / MS_PER_DAY)).2.1
    ++ '-' :: padDigits 2 (civilFromDays (ms / MS_PER_DAY)).2.2
    ++ 'T' :: padDigits 2 (ms % MS_PER_DAY / 3600000)
    ++ ':' :: padDigits 2 (ms % MS_PER_DAY % 3600000 / 60000)
    ++ ':' :: padDigits 2 (ms % MS_PER_DAY % 60000 / 1000)
    ++ '.' :: padDigits 3 (ms % MS_PER_DAY % 1000)

/-- The full `toISOString` character sequence, `'Z'`-suffixed. -/
def isoChars (ms : Nat) : List Char := isoBody ms ++ ['Z']

/-- `Date.prototype.toISOString` for instants below `ISO_MAX` (years up to
9999, where the four-digit year form is used). -/
def toISOString (ms : Nat) : String := ⟨isoChars ms⟩

/-- `s.replace('Z', '+00:00')`: replace the first occurrence of `'Z'`. -/
def replaceZ : List Char → List Char
  | [] => []
  | c :: rest => if c = 'Z' then '+' :: '0' :: '0' :: ':' :: '0' :: '0' :: rest
                 else c :: replaceZ rest

/-- The session-key characters of useMLPrediction.ts line 72:
`` `${y}-${pad2(m)}-${pad2(d)}` `` — for years 1000–9999 the `${y}`
template is the four-digit decimal form. -/
def keyChars (y m d : Nat) : List Char :=
  padDigits 4 y ++ '-' :: padDigits 2 m ++ '-' :: padDigits 2 d

/-- The `TodayWindow` value (useMLPrediction.ts lines 38–44): four
serialized instants and the session key.  `fromOffset`/`toOffset` carry the
`+00:00` suffix (for the endpoint whose parser rejects `'Z'`),
`fetchFromZ`/`fetchToZ` the `'Z'` suffix. -/
structure TodayWindow where
  fromOffset : String
  toOffset : String
  fetchFromZ : String
  fetchToZ : String
  key : String
  deriving DecidableEq

/-- `computeTodayWindow` (useMLPrediction.ts lines 46–75) as a function of
the wall-clock instant `nowMs`. -/
def computeTodayWindow (nowMs : Nat) : TodayWindow :=
  { fromOffset := ⟨replaceZ (isoChars (openUtcMs nowMs))⟩
    toOffset := ⟨replaceZ (isoChars nowMs)⟩
    fetchFromZ := toISOString (openUtcMs nowMs)
    fetchToZ := toISOString nowMs
    key := ⟨keyChars (istDate nowMs).1 (istDate nowMs).2.1 (istDate nowMs).2.2⟩ }

/-! ## Parsers used to state what the serialized forms denote -/

/-- Parse exactly `k` decimal digits, most significant first, extending
accumulator `acc`. -/
def parseDigitsAux (acc : Nat) : Nat → List Char → Option (Nat × List Char)
  | 0, cs => some (acc, cs)
  | _ + 1, [] => none
  | k + 1, c :: cs =>
    if c.isDigit then parseDigitsAux (acc * 10 + (c.toNat - 48)) k cs else none

/-- Consume one expected character. -/
def expectChar (c : Char) : List Char → Option (List Char)
  | [] => none
  | c' :: cs => if c' = c then some cs else none

/-- Parse `YYYY-MM-DD` and return the date components and the remaining
characters. -/
def parseDate (cs : List Char) : Option (Nat × Nat × Nat × List Char) :=
  (parseDigitsAux 0 4 cs).bind fun py =>
  (expectChar '-' py.2).bind fun cs1 =>
  (parseDigitsAux 0 2 cs1).bind fun pm =>
  (expectChar '-' pm.2).bind fun cs2 =>
  (parseDigitsAux 0 2 cs2).bind fun pd =>
  some (py.1, pm.1, pd.1, pd.2)

/-- Parse `THH:MM:SS.sss` and return the denoted millisecond-of-day and
the remaining characters. -/
def parseTime (cs : List Char) : Option (Nat × List Char) :=
  (expectChar 'T' cs).bind fun cs3 =>
  (parseDigitsAux 0 2 cs3).bind fun phh =>
  (expectChar ':' phh.2).bind fun cs4 =>
  (parseDigitsAux 0 2 cs4).bind fun pmi =>
  (expectChar ':' pmi.2).bind fun cs5 =>
  (parseDigitsAux 0 2 cs5).bind fun pss =>
  (expectChar '.' pss.2).bind fun cs6 =>
  (parseDigitsAux 0 3 cs6).bind fun pms =>
  some (phh.1 * 3600000 + pmi.1 * 60000 + pss.1 * 1000 + pms.1, pms.2)

/-- Parse `YYYY-MM-DDTHH:MM:SS.sss` and return the denoted UTC instant in
ms together with the remaining characters (the zone suffix). -/
def parseIsoCore (cs : List Char) : Option (Nat × List Char) :=
  (parseDate cs).bind fun pdt =>
  (parseTime pdt.2.2.2).bind fun pt =>
  some (daysFromCivil pdt.1 pdt.2.1 pdt.2.2.1 * MS_PER_DAY + pt.1, pt.2)

/-- The UTC instant denoted by a serialized timestamp in either of the two
conventions the window carries: the `'Z'`-suffixed form and the
`'+00:00'`-suffixed form (both denote zone offset zero). -/
def parseInstant (s : String) : Option Nat :=
  match parseIsoCore s.data with
  | some (t, suffix) =>
    if suffix = ['Z'] ∨ suffix = ['+', '0', '0', ':', '0', '0'] then some t else none
  | none => none

/-- Parse a `YYYY-MM-DD` session key back into its date components,
requiring the whole string to be consumed. -/
def parseKey (s : String) : Option (Nat × Nat × Nat) :=
  match parseDate s.data with
  | some (y, m, d, []) => some (y, m, d)
  | _ => none

/-! ## Concrete values used by witnesses and counterexamples -/

/-- A bar at instant 1000 with price 1. -/
def barA : OHLCVBar := mkLiveBar 1 1000

/-- A bar at instant 2000 with price 2. -/
def barB : OHLCVBar := mkLiveBar 2 2000

/-- An out-of-order two-bar series. -/
def unsortedBase : List OHLCVBar := [barB, barA]

/-- A list of 30001 distinct bars. -/
def manyBars : List OHLCVBar := (List.range 30001).map fun i => mkLiveBar 1 i

/-! ## Theorems: backfill-and-merge coordinator -/

theorem todayLiveData_disabled (base : List OHLCVBar) (live : List OHLCVBar) :
    todayLiveData false (some base) live = base := by
  simp [todayLiveData]

theorem todayLiveData_live_nil (base : List OHLCVBar) :
    todayLiveData true (some base) [] = base := by
  simp [todayLiveData]

theorem todayLiveData_live_cons (base : List OHLCVBar) (a : OHLCVBar) (l : List OHLCVBar) :
    todayLiveData true (some base) (a :: l) = List.insertionSort tsLe (base ++ a :: l) := by
  simp [todayLiveData]

theorem todayLiveData_sorted_cons (base : List OHLCVBar) (a : OHLCVBar) (l : List OHLCVBar) :
    sortedByTs (todayLiveData true (some base) (a :: l)) := by
  rw [todayLiveData_live_cons]
  exact List.sorted_insertionSort tsLe (base ++ a :: l)

/-- C1: the claim requires a backfill response that arrives after the
symbol or session key changed to be discarded — neither writing the
retained error nor triggering the historical-cache refresh.  The source's
continuation does the opposite: it never compares the request's
identifiers with the current ones.  Here a response for request symbol
`"RELIANCE"` / key `"2026-10-10"` lands while the current symbol is
`"TCS"` on key `"2026-10-12"`, and it still records the error and bumps
the refetch counter. -/
theorem stale_backfill_response_applied :
    applyBackfillResponse "RELIANCE" "2026-10-10" (.apiError "boom")
        { currentSymbol := "TCS", currentKey := "2026-10-12",
          backfillError := none, refetchCount := 0 }
      = { currentSymbol := "TCS", currentKey := "2026-10-12",
          backfillError := some "boom", refetchCount := 1 } := rfl

/-- C2 counterexample: merging a historical series and a live buffer that
share the instant of `barA` yields a series with a duplicated timestamp —
the merge performs no de-duplication. -/
theorem merge_has_duplicate_timestamps :
    ¬ dupFreeTs (todayLiveData true (some [barA]) [barA]) := by decide

/-- C2 (amended): the merged series produced by the coordinator with a
nonempty live buffer is sorted nondecreasingly by timestamp, but bars with
exactly equal timestamps survive the merge (no de-duplication pass is
performed). -/
theorem merge_sorted_of_live_nonempty (base live : List OHLCVBar) (h : live ≠ []) :
    sortedByTs (todayLiveData true (some base) live) := by
  match live, h with
  | a :: l, _ => exact todayLiveData_sorted_cons base a l

theorem merge_sorted_of_live_nonempty_witness :
    ([barA] : List OHLCVBar) ≠ []
      ∧ sortedByTs (todayLiveData true (some [barB]) [barA]) :=
  ⟨by decide, merge_sorted_of_live_nonempty [barB] [barA] (by decide)⟩

/-- C3: with live mode enabled and a sorted historical series (the backend
returns bars ordered by timestamp), the merge returns a sorted sequence of
length `|historical| + |live|`; merging an empty historical series returns
the live buffer sorted (a sorted permutation of it); with live mode
disabled the historical series is returned unchanged. -/
theorem merge_sorted_length (base live : List OHLCVBar) (hbase : sortedByTs base) :
    sortedByTs (todayLiveData true (some base) live)
      ∧ (todayLiveData true (some base) live).length = base.length + live.length
      ∧ (todayLiveData true (some []) live).Perm live
      ∧ sortedByTs (todayLiveData true (some []) live)
      ∧ todayLiveData false (some base) live = base := by
  refine ⟨?_, ?_, ?_, ?_, todayLiveData_disabled base live⟩
  · cases live with
    | nil => rw [todayLiveData_live_nil]; exact hbase
    | cons a l => exact todayLiveData_sorted_cons base a l
  · cases live with
    | nil => rw [todayLiveData_live_nil]; simp
    | cons a l =>
      rw [todayLiveData_live_cons]
      simp [List.length_insertionSort]
  · cases live with
    | nil => rw [todayLiveData_live_nil]
    | cons a l =>
      rw [todayLiveData_live_cons]
      simpa using List.perm_insertionSort tsLe ([] ++ a :: l)
  · cases live with
    | nil => rw [todayLiveData_live_nil]; exact List.Pairwise.nil
    | cons a l => exact todayLiveData_sorted_cons [] a l

theorem merge_sorted_length_witness :
    sortedByTs [barA]
      ∧ (sortedByTs (todayLiveData true (some [barA]) [barB])
          ∧ (todayLiveData true (some [barA]) [barB]).length = 2
          ∧ (todayLiveData true (some []) [barB]).Perm [barB]
          ∧ sortedByTs (todayLiveData true (some []) [barB])
          ∧ todayLiveData false (some [barA]) [barB] = [barA]) :=
  ⟨by decide, merge_sorted_length [barA] [barB] (by decide)⟩

/-- C10: with live mode enabled and an empty live buffer, the merge memo
returns the historical series exactly as given — in particular the
out-of-order series `unsortedBase` passes through unsorted. -/
theorem merge_passthrough_when_live_empty :
    (∀ base : List OHLCVBar, todayLiveData true (some base) [] = base)
      ∧ ¬ sortedByTs unsortedBase
      ∧ todayLiveData true (some unsortedBase) [] = unsortedBase :=
  ⟨todayLiveData_live_nil, by decide, todayLiveData_live_nil unsortedBase⟩

/-- C4: the refetch decision is true iff no marker exists, the symbol
differs, the session key differs, or strictly more than 60 000 ms have
elapsed since the marker; hence a second evaluation for the same symbol
and window within 60 seconds is negative, and a symbol change makes it
positive regardless of elapsed time. -/
theorem shouldRun_spec :
    (∀ s k now, shouldRun s k none now = true)
      ∧ (∀ s k (l : BackfillMarker) now,
          shouldRun s k (some l) now = true ↔
            (l.symbol ≠ s ∨ l.key ≠ k ∨ 60000 < now - l.atMs))
      ∧ (∀ s k t1 t2, t2 - t1 ≤ 60000 →
          shouldRun s k (some ⟨s, k, t1⟩) t2 = false)
      ∧ (∀ s k (l : BackfillMarker) now, l.symbol ≠ s →
          shouldRun s k (some l) now = true) := by
  refine ⟨fun _ _ _ => rfl, fun s k l now => ?_, fun s k t1 t2 h => ?_, fun s k l now h => ?_⟩
  · simp [shouldRun, or_assoc]
  · simp [shouldRun]
    omega
  · simp [shouldRun, h]

theorem shouldRun_spec_witness :
    ((30000 : Nat) - 0 ≤ 60000
        ∧ shouldRun "RELIANCE" "2026-10-12" (some ⟨"RELIANCE", "2026-10-12", 0⟩) 30000 = false)
      ∧ (("RELIANCE" : String) ≠ "TCS"
          ∧ shouldRun "TCS" "2026-10-12" (some ⟨"RELIANCE", "2026-10-12", 29999⟩) 30000 = true) :=
  ⟨⟨by decide, shouldRun_spec.2.2.1 "RELIANCE" "2026-10-12" 0 30000 (by decide)⟩,
   ⟨by decide, shouldRun_spec.2.2.2 "TCS" "2026-10-12" ⟨"RELIANCE", "2026-10-12", 29999⟩ 30000
      (by decide)⟩⟩

/-! ## Theorems: live tick stream client -/

/-- C9: every invalid transport message — unparsable data, a falsy parse
result, a missing or wrong `type` tag, no tick records, or a first tick
whose price is not a finite number — leaves the client state (buffer and
throttle clock) unchanged, so no bar is emitted. -/
theorem invalid_messages_dropped :
    (∀ s t, onMessage s t .malformed = s)
      ∧ (∀ s t, onMessage s t .nullish = s)
      ∧ (∀ s t m, m.type_ ≠ "ticks" → onMessage s t (.event m) = s)
      ∧ (∀ s t m, m.ticks.getD [] = [] → onMessage s t (.event m) = s)
      ∧ (∀ s t m tick rest, m.ticks = some (tick :: rest) →
          tick.last_price.isFinite = false → onMessage s t (.event m) = s) := by
  refine ⟨fun _ _ => rfl, fun _ _ => rfl, fun s t m h => ?_, fun s t m h => ?_,
    fun s t m tick rest h hfin => ?_⟩
  · simp [onMessage, h]
  · by_cases htype : m.type_ = "ticks"
    · simp [onMessage, htype, h]
    · simp [onMessage, htype]
  · by_cases htype : m.type_ = "ticks"
    · cases hlp : tick.last_price with
      | finite q => rw [hlp] at hfin; simp [JsNumber.isFinite] at hfin
      | nan => simp [onMessage, htype, h, hlp]
      | posInf => simp [onMessage, htype, h, hlp]
      | negInf => simp [onMessage, htype, h, hlp]
    · simp [onMessage, htype]

theorem invalid_messages_dropped_witness :
    (onMessage initLiveState 5000 .malformed = initLiveState)
      ∧ (({ type_ := "tick", received_at := none, ticks := some [{ last_price := .finite 1 }] }
            : TicksMessage).type_ ≠ "ticks"
          ∧ onMessage initLiveState 5000
              (.event { type_ := "tick", received_at := none,
                        ticks := some [{ last_price := .finite 1 }] }) = initLiveState)
      ∧ (({ type_ := "ticks", received_at := none, ticks := none } : TicksMessage).ticks.getD [] = []
          ∧ onMessage initLiveState 5000
              (.event { type_ := "ticks", received_at := none, ticks := none }) = initLiveState)
      ∧ (({ type_ := "ticks", received_at := none, ticks := some [{ last_price := .nan }] }
            : TicksMessage).ticks = some [{ last_price := .nan }]
          ∧ (JsNumber.isFinite .nan = false)
          ∧ onMessage initLiveState 5000
              (.event { type_ := "ticks", received_at := none,
                        ticks := some [{ last_price := .nan }] }) = initLiveState) :=
  ⟨invalid_messages_dropped.1 initLiveState 5000,
   ⟨by decide, invalid_messages_dropped.2.2.1 initLiveState 5000 _ (by decide)⟩,
   ⟨rfl, invalid_messages_dropped.2.2.2.1 initLiveState 5000 _ rfl⟩,
   ⟨rfl, rfl, invalid_messages_dropped.2.2.2.2 initLiveState 5000 _ _ [] rfl rfl⟩⟩

theorem pushPoint_eq_drop (prev : List OHLCVBar) (bar : OHLCVBar) :
    pushPoint prev bar = (prev ++ [bar]).drop (prev.length + 1 - MAX_POINTS) := by
  simp only [pushPoint]
  split
  · next h =>
    have hlen : (prev ++ [bar]).length = prev.length + 1 := by simp
    rw [hlen]
  · next h =>
    have h0 : prev.length + 1 - MAX_POINTS = 0 := by
      simp only [List.length_append, List.length_cons, List.length_nil] at h
      omega
    rw [h0, List.drop_zero]

theorem foldl_pushPoint (bars : List OHLCVBar) :
    ∀ acc : List OHLCVBar, acc.length ≤ MAX_POINTS →
      List.foldl pushPoint acc bars = (acc ++ bars).drop (acc.length + bars.length - MAX_POINTS) := by
  induction bars with
  | nil =>
    intro acc h
    simp only [List.foldl_nil, List.append_nil, List.length_nil, Nat.add_zero,
      Nat.sub_eq_zero_of_le h, List.drop_zero]
  | cons b bs ih =>
    intro acc h
    rw [List.foldl_cons, pushPoint_eq_drop]
    have hle : ((acc ++ [b]).drop (acc.length + 1 - MAX_POINTS)).length ≤ MAX_POINTS := by
      simp only [List.length_drop, List.length_append, List.length_cons, List.length_nil]
      omega
    rw [ih _ hle]
    have hlen : ((acc ++ [b]).drop (acc.length + 1 - MAX_POINTS)).length
        = acc.length + 1 - (acc.length + 1 - MAX_POINTS) := by
      simp only [List.length_drop, List.length_append, List.length_cons, List.length_nil]
    rw [hlen]
    have hd1le : acc.length + 1 - MAX_POINTS ≤ (acc ++ [b]).length := by
      simp only [List.length_append, List.length_cons, List.length_nil]
      omega
    rw [← List.drop_append_of_le_length hd1le, List.drop_drop]
    have hassoc : (acc ++ [b]) ++ bs = acc ++ b :: bs := by simp
    rw [hassoc]
    have harith : acc.length + 1 - MAX_POINTS
          + (acc.length + 1 - (acc.length + 1 - MAX_POINTS) + bs.length - MAX_POINTS)
        = acc.length + (b :: bs).length - MAX_POINTS := by
      simp only [List.length_cons]
      omega
    rw [harith]

/-- C6: the live buffer is the fold of the `setPoints` updater over the
accepted bars; it always equals the suffix of the accepted bars past the
first `length - 30000`, its length is `min length 30000` (so it never
exceeds 30,000 entries), and after more than 30,000 accepted ticks it holds
exactly the 30,000 most recent bars in acceptance order. -/
theorem buffer_cap (bars : List OHLCVBar) :
    liveBuffer bars = bars.drop (bars.length - MAX_POINTS)
      ∧ (liveBuffer bars).length = min bars.length MAX_POINTS
      ∧ (MAX_POINTS < bars.length → (liveBuffer bars).length = MAX_POINTS) := by
  have h := foldl_pushPoint bars [] (by simp)
  simp only [List.nil_append, List.length_nil, Nat.zero_add] at h
  unfold liveBuffer
  refine ⟨h, ?_, fun hlt => ?_⟩
  · rw [h]
    simp only [List.length_drop]
    omega
  · rw [h]
    simp only [List.length_drop]
    omega

theorem buffer_cap_witness :
    MAX_POINTS < manyBars.length ∧ (liveBuffer manyBars).length = MAX_POINTS :=
  ⟨by norm_num [manyBars, MAX_POINTS],
   (buffer_cap manyBars).2.2 (by norm_num [manyBars, MAX_POINTS])⟩

theorem accepts_false_eq (s : LiveTicksState) (t : Nat) (msg : WsMessage)
    (h : accepts s t msg = false) : onMessage s t msg = s := by
  cases msg with
  | malformed => rfl
  | nullish => rfl
  | event m =>
    by_cases htype : m.type_ = "ticks"
    · cases hticks : m.ticks.getD [] with
      | nil => simp [onMessage, htype, hticks]
      | cons tick rest =>
        cases hlp : tick.last_price with
        | finite q =>
          by_cases hthr : t - s.lastEmitMs < 1000
          · simp [onMessage, htype, hticks, hlp, hthr]
          · exfalso
            simp [accepts, htype, hticks, hlp, JsNumber.isFinite, hthr] at h
        | nan => simp [onMessage, htype, hticks, hlp]
        | posInf => simp [onMessage, htype, hticks, hlp]
        | negInf => simp [onMessage, htype, hticks, hlp]
    · simp [onMessage, htype]

theorem accepts_true_emit (s : LiveTicksState) (t : Nat) (msg : WsMessage)
    (h : accepts s t msg = true) :
    (onMessage s t msg).lastEmitMs = t ∧ s.lastEmitMs + 1000 ≤ t := by
  cases msg with
  | malformed => simp [accepts] at h
  | nullish => simp [accepts] at h
  | event m =>
    by_cases htype : m.type_ = "ticks"
    · cases hticks : m.ticks.getD [] with
      | nil => simp [accepts, htype, hticks] at h
      | cons tick rest =>
        cases hlp : tick.last_price with
        | finite q =>
          by_cases hthr : t - s.lastEmitMs < 1000
          · simp [accepts, htype, hticks, hlp, JsNumber.isFinite, hthr] at h
          · refine ⟨?_, by omega⟩
            simp [onMessage, htype, hticks, hlp, hthr]
        | nan => simp [accepts, htype, hticks, hlp, JsNumber.isFinite] at h
        | posInf => simp [accepts, htype, hticks, hlp, JsNumber.isFinite] at h
        | negInf => simp [accepts, htype, hticks, hlp, JsNumber.isFinite] at h
    · simp [accepts, htype] at h

theorem onMessage_lastEmit_le (s : LiveTicksState) (t : Nat) (msg : WsMessage) :
    s.lastEmitMs ≤ (onMessage s t msg).lastEmitMs := by
  cases h : accepts s t msg with
  | true =>
    have he := accepts_true_emit s t msg h
    omega
  | false =>
    rw [accepts_false_eq s t msg h]

theorem acceptTimes_lower (trace : List (Nat × WsMessage)) :
    ∀ (s : LiveTicksState) (a : Nat), a ∈ acceptTimes s trace → s.lastEmitMs + 1000 ≤ a := by
  induction trace with
  | nil => intro s a ha; simp [acceptTimes] at ha
  | cons p rest ih =>
    intro s a ha
    obtain ⟨t, m⟩ := p
    simp only [acceptTimes] at ha
    cases h : accepts s t m with
    | true =>
      rw [h] at ha
      simp at ha
      have he := accepts_true_emit s t m h
      rcases ha with rfl | ha
      · exact he.2
      · have hr := ih (onMessage s t m) a ha
        omega
    | false =>
      rw [h] at ha
      simp at ha
      rw [accepts_false_eq s t m h] at ha
      exact ih s a ha

theorem acceptTimes_mem_times (trace : List (Nat × WsMessage)) :
    ∀ (s : LiveTicksState) (a : Nat), a ∈ acceptTimes s trace → ∃ m, (a, m) ∈ trace := by
  induction trace with
  | nil => intro s a ha; simp [acceptTimes] at ha
  | cons p rest ih =>
    intro s a ha
    obtain ⟨t, m⟩ := p
    simp only [acceptTimes] at ha
    cases h : accepts s t m with
    | true =>
      rw [h] at ha
      simp at ha
      rcases ha with rfl | ha
      · exact ⟨m, by simp⟩
      · obtain ⟨m', hm'⟩ := ih _ a ha
        exact ⟨m', by simp [hm']⟩
    | false =>
      rw [h] at ha
      simp at ha
      obtain ⟨m', hm'⟩ := ih _ a ha
      exact ⟨m', by simp [hm']⟩

theorem acceptTimes_pairwise (trace : List (Nat × WsMessage)) :
    ∀ s : LiveTicksState,
      List.Pairwise (fun a b => a + 1000 ≤ b) (acceptTimes s trace) := by
  induction trace with
  | nil => intro s; simp [acceptTimes]
  | cons p rest ih =>
    intro s
    obtain ⟨t, m⟩ := p
    simp only [acceptTimes]
    cases h : accepts s t m with
    | true =>
      rw [if_pos rfl]
      refine List.Pairwise.cons (fun b hb => ?_) (ih _)
      have hlow := acceptTimes_lower rest (onMessage s t m) b hb
      have he := accepts_true_emit s t m h
      omega
    | false =>
      rw [if_neg (by simp)]
      exact ih _

theorem evenTrace_accept_all (n : Nat) :
    ∀ (t0 : Nat) (s : LiveTicksState), s.lastEmitMs + 1000 ≤ t0 →
      (acceptTimes s (evenTrace t0 n)).length = n := by
  induction n with
  | zero => intro t0 s _; simp [evenTrace, acceptTimes]
  | succ n ih =>
    intro t0 s h
    have hacc : accepts s t0 goodTickMsg = true := by
      simp [accepts, goodTickMsg, JsNumber.isFinite]
      omega
    have hemit := (accepts_true_emit s t0 goodTickMsg hacc).1
    simp only [evenTrace, acceptTimes, if_pos hacc]
    simp only [List.length_cons]
    rw [ih (t0 + 1000) _ (by omega)]

/-- C5: over any trace of timed transport messages, the client emits at
most one bar per rolling 1-second window: the emission times, in trace
order, are pairwise at least 1000 ms apart; consequently a burst confined
to a 500 ms window yields at most one bar, while well-formed messages
spaced exactly one second apart are all accepted — one bar per second. -/
theorem tick_throttle_spec :
    (∀ (trace : List (Nat × WsMessage)) (s : LiveTicksState),
        List.Pairwise (fun a b => a + 1000 ≤ b) (acceptTimes s trace))
      ∧ (∀ (trace : List (Nat × WsMessage)) (t0 : Nat),
          (∀ p ∈ trace, t0 ≤ p.1 ∧ p.1 < t0 + 500) →
          (acceptTimes initLiveState trace).length ≤ 1)
      ∧ (∀ t0 n, 1000 ≤ t0 →
          (acceptTimes initLiveState (evenTrace t0 n)).length = n) := by
  refine ⟨fun trace s => acceptTimes_pairwise trace s, fun trace t0 hb => ?_,
    fun t0 n h => evenTrace_accept_all n t0 initLiveState (by simpa [initLiveState] using h)⟩
  rcases hA : acceptTimes initLiveState trace with _ | ⟨a, _ | ⟨b, tl⟩⟩
  · simp [hA]
  · simp [hA]
  · exfalso
    have hp := acceptTimes_pairwise trace initLiveState
    rw [hA] at hp
    have hab : a + 1000 ≤ b := by
      cases hp with
      | cons h1 _ => exact h1 b (by simp)
    obtain ⟨ma, hma⟩ := acceptTimes_mem_times trace initLiveState a (by rw [hA]; simp)
    obtain ⟨mb, hmb⟩ := acceptTimes_mem_times trace initLiveState b (by rw [hA]; simp)
    have h1 := hb _ hma
    have h2 := hb _ hmb
    simp at h1 h2
    omega

/-! ## Theorems: session window calculator -/

set_option maxHeartbeats 1600000 in
theorem dayFromYear_succ (y : Nat) (h : 1970 ≤ y) :
    dayFromYear (y + 1) = dayFromYear y + daysInYear y := by
  simp only [dayFromYear, daysInYear, isLeap]
  split
  · next hl =>
    simp only [Bool.or_eq_true, Bool.and_eq_true, beq_iff_eq, bne_iff_ne, ne_eq] at hl
    omega
  · next hl =>
    simp only [Bool.or_eq_true, Bool.and_eq_true, beq_iff_eq, bne_iff_ne, ne_eq,
      not_or, not_and] at hl
    omega

theorem dayFromYear_lower (k : Nat) : 365 * k ≤ dayFromYear (1970 + k) := by
  simp only [dayFromYear]
  omega

theorem dayFromYear_big (y : Nat) (hgt : 9999 < y) : 2932897 ≤ dayFromYear y := by
  simp only [dayFromYear]
  omega

theorem findYear_spec (fuel : Nat) :
    ∀ y z : Nat, 1970 ≤ y → dayFromYear y ≤ z → z < dayFromYear (y + fuel + 1) →
      1970 ≤ findYear y fuel z
        ∧ dayFromYear (findYear y fuel z) ≤ z
        ∧ z < dayFromYear (findYear y fuel z + 1) := by
  induction fuel with
  | zero =>
    intro y z hy h1 h2
    simp only [findYear]
    exact ⟨hy, h1, by simpa using h2⟩
  | succ fuel ih =>
    intro y z hy h1 h2
    simp only [findYear]
    split
    · next hle =>
      refine ih (y + 1) z (by omega) hle ?_
      have heq : y + 1 + fuel + 1 = y + (fuel + 1) + 1 := by omega
      rw [heq]
      exact h2
    · next hnle => exact ⟨hy, h1, by omega⟩

theorem yearFromDay_spec (z : Nat) :
    1970 ≤ yearFromDay z ∧ dayFromYear (yearFromDay z) ≤ z
      ∧ z < dayFromYear (yearFromDay z + 1) := by
  have h0 : dayFromYear 1970 = 0 := by decide
  have hbig : z < dayFromYear (1970 + (z + 1) + 1) := by
    have hlow := dayFromYear_lower (z + 2)
    have heq : 1970 + (z + 1) + 1 = 1970 + (z + 2) := by omega
    rw [heq]
    omega
  exact findYear_spec (z + 1) 1970 z (Nat.le_refl _) (by omega) hbig

theorem yearFromDay_le (z : Nat) (h : z < 2932897) : yearFromDay z ≤ 9999 := by
  obtain ⟨hy, h1, h2⟩ := yearFromDay_spec z
  cases Nat.lt_or_ge 9999 (yearFromDay z) with
  | inl hgt =>
    have hbig := dayFromYear_big (yearFromDay z) hgt
    omega
  | inr hle => exact hle

theorem daysInYear_eq (y : Nat) :
    daysInYear y = 365 + (if isLeap y = true then 1 else 0) := by
  cases h : isLeap y with
  | true => simp [daysInYear, h]
  | false => simp [daysInYear, h]

theorem monthFromDwy_spec (dwy : Nat) (leap : Bool)
    (h : dwy < 365 + (if leap = true then 1 else 0)) :
    1 ≤ monthFromDwy dwy leap ∧ monthFromDwy dwy leap ≤ 12
      ∧ monthStart (monthFromDwy dwy leap) leap ≤ dwy
      ∧ dwy < monthStart (monthFromDwy dwy leap + 1) leap
      ∧ dwy - monthStart (monthFromDwy dwy leap) leap ≤ 30 := by
  cases leap with
  | false =>
    have hall : ∀ w : Nat, w < 365 →
        1 ≤ monthFromDwy w false ∧ monthFromDwy w false ≤ 12
          ∧ monthStart (monthFromDwy w false) false ≤ w
          ∧ w < monthStart (monthFromDwy w false + 1) false
          ∧ w - monthStart (monthFromDwy w false) false ≤ 30 := by decide
    refine hall dwy ?_
    simpa using h
  | true =>
    have hall : ∀ w : Nat, w < 366 →
        1 ≤ monthFromDwy w true ∧ monthFromDwy w true ≤ 12
          ∧ monthStart (monthFromDwy w true) true ≤ w
          ∧ w < monthStart (monthFromDwy w true + 1) true
          ∧ w - monthStart (monthFromDwy w true) true ≤ 30 := by decide
    refine hall dwy ?_
    simpa using h

theorem civilFromDays_spec (z : Nat) :
    daysFromCivil (civilFromDays z).1 (civilFromDays z).2.1 (civilFromDays z).2.2 = z
      ∧ 1970 ≤ (civilFromDays z).1
      ∧ 1 ≤ (civilFromDays z).2.1 ∧ (civilFromDays z).2.1 ≤ 12
      ∧ 1 ≤ (civilFromDays z).2.2 ∧ (civilFromDays z).2.2 ≤ 31 := by
  obtain ⟨hy, h1, h2⟩ := yearFromDay_spec z
  have hsucc := dayFromYear_succ (yearFromDay z) hy
  have hdwy : z - dayFromYear (yearFromDay z) < daysInYear (yearFromDay z) := by omega
  rw [daysInYear_eq] at hdwy
  have hm := monthFromDwy_spec (z - dayFromYear (yearFromDay z)) (isLeap (yearFromDay z)) hdwy
  simp only [civilFromDays, daysFromCivil]
  refine ⟨?_, hy, hm.1, hm.2.1, ?_, ?_⟩ <;> omega

theorem civilFromDays_fst (z : Nat) : (civilFromDays z).1 = yearFromDay z := rfl

theorem civilFromDays_inj (z1 z2 : Nat) (h : civilFromDays z1 = civilFromDays z2) :
    z1 = z2 := by
  have h1 := (civilFromDays_spec z1).1
  have h2 := (civilFromDays_spec z2).1
  rw [h] at h1
  omega

theorem openUtcMs_eq (t : Nat) : openUtcMs t = istDayNumber t * MS_PER_DAY + 13500000 := by
  have hs := civilFromDays_spec (istDayNumber t)
  simp only [openUtcMs, istDate]
  rw [hs.1]

theorem digitChar_spec : ∀ q : Nat, q < 10 →
    (Nat.digitChar q).isDigit = true ∧ (Nat.digitChar q).toNat - 48 = q := by decide

theorem digitChar_ne_upperZ (q : Nat) : Nat.digitChar q ≠ 'Z' := by
  cases Nat.lt_or_ge q 16 with
  | inl h =>
    have hall : ∀ w : Nat, w < 16 → Nat.digitChar w ≠ 'Z' := by decide
    exact hall q h
  | inr h =>
    simp only [Nat.digitChar]
    repeat rw [if_neg (by omega)]
    decide

theorem expectChar_cons (c c' : Char) (cs : List Char) :
    expectChar c (c' :: cs) = if c' = c then some cs else none := rfl

theorem parseDigitsAux_digit (acc k q : Nat) (cs : List Char) (hq : q < 10) :
    parseDigitsAux acc (k + 1) (Nat.digitChar q :: cs)
      = parseDigitsAux (acc * 10 + q) k cs := by
  have hd := digitChar_spec q hq
  simp [parseDigitsAux, hd.1, hd.2]

theorem parseDigitsAux_pad2 (acc n : Nat) (rest : List Char) (h : n < 100) :
    parseDigitsAux acc 2 (padDigits 2 n ++ rest) = some (acc * 100 + n, rest) := by
  have hp : (10:Nat) ^ 1 = 10 := by decide
  have hq1 : n / 10 ^ 1 < 10 := by rw [hp]; omega
  have hq2 : n % 10 ^ 1 < 10 := by rw [hp]; omega
  simp only [padDigits, Nat.pow_zero, Nat.div_one, Nat.mod_one, List.cons_append,
    List.nil_append]
  rw [parseDigitsAux_digit _ _ _ _ hq1, parseDigitsAux_digit _ _ _ _ hq2]
  simp only [parseDigitsAux, Option.some.injEq, Prod.mk.injEq]
  refine ⟨?_, trivial⟩
  rw [hp]
  omega

theorem parseDigitsAux_pad3 (acc n : Nat) (rest : List Char) (h : n < 1000) :
    parseDigitsAux acc 3 (padDigits 3 n ++ rest) = some (acc * 1000 + n, rest) := by
  have hp1 : (10:Nat) ^ 1 = 10 := by decide
  have hp2 : (10:Nat) ^ 2 = 100 := by decide
  have hq1 : n / 10 ^ 2 < 10 := by rw [hp2]; omega
  have hq2 : n % 10 ^ 2 / 10 ^ 1 < 10 := by rw [hp1, hp2]; omega
  have hq3 : n % 10 ^ 2 % 10 ^ 1 < 10 := by rw [hp1]; omega
  simp only [padDigits, Nat.pow_zero, Nat.div_one, Nat.mod_one, List.cons_append,
    List.nil_append]
  rw [parseDigitsAux_digit _ _ _ _ hq1, parseDigitsAux_digit _ _ _ _ hq2,
    parseDigitsAux_digit _ _ _ _ hq3]
  simp only [parseDigitsAux, Option.some.injEq, Prod.mk.injEq]
  refine ⟨?_, trivial⟩
  rw [hp1, hp2]
  omega

theorem parseDigitsAux_pad4 (acc n : Nat) (rest : List Char) (h : n < 10000) :
    parseDigitsAux acc 4 (padDigits 4 n ++ rest) = some (acc * 10000 + n, rest) := by
  have hp1 : (10:Nat) ^ 1 = 10 := by decide
  have hp2 : (10:Nat) ^ 2 = 100 := by decide
  have hp3 : (10:Nat) ^ 3 = 1000 := by decide
  have hq1 : n / 10 ^ 3 < 10 := by rw [hp3]; omega
  have hq2 : n % 10 ^ 3 / 10 ^ 2 < 10 := by rw [hp2, hp3]; omega
  have hq3 : n % 10 ^ 3 % 10 ^ 2 / 10 ^ 1 < 10 := by rw [hp1, hp2, hp3]; omega
  have hq4 : n % 10 ^ 3 % 10 ^ 2 % 10 ^ 1 < 10 := by rw [hp1]; omega
  simp only [padDigits, Nat.pow_zero, Nat.div_one, Nat.mod_one, List.cons_append,
    List.nil_append]
  rw [parseDigitsAux_digit _ _ _ _ hq1, parseDigitsAux_digit _ _ _ _ hq2,
    parseDigitsAux_digit _ _ _ _ hq3, parseDigitsAux_digit _ _ _ _ hq4]
  simp only [parseDigitsAux, Option.some.injEq, Prod.mk.injEq]
  refine ⟨?_, trivial⟩
  rw [hp1, hp2, hp3]
  omega

theorem parseDate_pad (y m d : Nat) (rest : List Char) (hy : y < 10000) (hm : m < 100)
    (hd : d < 100) :
    parseDate (padDigits 4 y ++ ('-' :: (padDigits 2 m ++ ('-' :: (padDigits 2 d ++ rest)))))
      = some (y, m, d, rest) := by
  have e1 := parseDigitsAux_pad4 0 y
    ('-' :: (padDigits 2 m ++ ('-' :: (padDigits 2 d ++ rest)))) hy
  have e2 := parseDigitsAux_pad2 0 m ('-' :: (padDigits 2 d ++ rest)) hm
  have e3 := parseDigitsAux_pad2 0 d rest hd
  simp [parseDate, e1, e2, e3, expectChar_cons]

theorem parseTime_pad (hh mi ss ms3 : Nat) (rest : List Char) (h1 : hh < 100)
    (h2 : mi < 100) (h3 : ss < 100) (h4 : ms3 < 1000) :
    parseTime ('T' :: (padDigits 2 hh ++ (':' :: (padDigits 2 mi ++ (':' :: (padDigits 2 ss
        ++ ('.' :: (padDigits 3 ms3 ++ rest))))))))
      = some (hh * 3600000 + mi * 60000 + ss * 1000 + ms3, rest) := by
  have e1 := parseDigitsAux_pad2 0 hh
    (':' :: (padDigits 2 mi ++ (':' :: (padDigits 2 ss ++ ('.' :: (padDigits 3 ms3 ++ rest)))))) h1
  have e2 := parseDigitsAux_pad2 0 mi
    (':' :: (padDigits 2 ss ++ ('.' :: (padDigits 3 ms3 ++ rest)))) h2
  have e3 := parseDigitsAux_pad2 0 ss ('.' :: (padDigits 3 ms3 ++ rest)) h3
  have e4 := parseDigitsAux_pad3 0 ms3 rest h4
  simp [parseTime, e1, e2, e3, e4, expectChar_cons]

theorem parseIsoCore_isoBody (ms : Nat) (rest : List Char) (h : ms < ISO_MAX) :
    parseIsoCore (isoBody ms ++ rest) = some (ms, rest) := by
  have hz : ms / MS_PER_DAY < 2932897 := by
    simp only [MS_PER_DAY, ISO_MAX] at *
    omega
  obtain ⟨hrt, hy1970, hm1, hm12, hd1, hd31⟩ := civilFromDays_spec (ms / MS_PER_DAY)
  have hy := yearFromDay_le (ms / MS_PER_DAY) hz
  have hy4 : (civilFromDays (ms / MS_PER_DAY)).1 < 10000 := by
    rw [civilFromDays_fst]
    omega
  have hm2 : (civilFromDays (ms / MS_PER_DAY)).2.1 < 100 := by omega
  have hd2 : (civilFromDays (ms / MS_PER_DAY)).2.2 < 100 := by omega
  have hh2 : ms % MS_PER_DAY / 3600000 < 100 := by
    simp only [MS_PER_DAY]
    omega
  have hmi2 : ms % MS_PER_DAY % 3600000 / 60000 < 100 := by
    simp only [MS_PER_DAY]
    omega
  have hss2 : ms % MS_PER_DAY % 60000 / 1000 < 100 := by
    simp only [MS_PER_DAY]
    omega
  have hms3 : ms % MS_PER_DAY % 1000 < 1000 := by
    simp only [MS_PER_DAY]
    omega
  have hdt := parseDate_pad (civilFromDays (ms / MS_PER_DAY)).1
    (civilFromDays (ms / MS_PER_DAY)).2.1 (civilFromDays (ms / MS_PER_DAY)).2.2
    ('T' :: (padDigits 2 (ms % MS_PER_DAY / 3600000)
      ++ (':' :: (padDigits 2 (ms % MS_PER_DAY % 3600000 / 60000)
      ++ (':' :: (padDigits 2 (ms % MS_PER_DAY % 60000 / 1000)
      ++ ('.' :: (padDigits 3 (ms % MS_PER_DAY % 1000) ++ rest))))))))
    hy4 hm2 hd2
  have htm := parseTime_pad (ms % MS_PER_DAY / 3600000) (ms % MS_PER_DAY % 3600000 / 60000)
    (ms % MS_PER_DAY % 60000 / 1000) (ms % MS_PER_DAY % 1000) rest hh2 hmi2 hss2 hms3
  simp only [isoBody, List.append_assoc, List.cons_append]
  simp [parseIsoCore, hdt, htm]
  simp only [MS_PER_DAY] at hrt ⊢
  omega

theorem padDigits_no_upperZ (k : Nat) : ∀ n, 'Z' ∉ padDigits k n := by
  induction k with
  | zero => intro n; simp [padDigits]
  | succ k ih =>
    intro n
    simp only [padDigits, List.mem_cons, not_or]
    exact ⟨fun hc => digitChar_ne_upperZ (n / 10 ^ k) (Eq.symm hc), ih _⟩

theorem isoBody_no_upperZ (ms : Nat) : 'Z' ∉ isoBody ms := by
  simp [isoBody, padDigits_no_upperZ]

theorem replaceZ_append (l : List Char) (h : 'Z' ∉ l) :
    replaceZ (l ++ ['Z']) = l ++ ['+', '0', '0', ':', '0', '0'] := by
  induction l with
  | nil => simp [replaceZ]
  | cons c cs ih =>
    simp only [List.mem_cons, not_or] at h
    have hc : ¬(c = 'Z') := fun hc => h.1 (Eq.symm hc)
    simp only [List.cons_append, replaceZ, List.append_eq, if_neg hc]
    rw [ih h.2]

theorem parseInstant_iso (ms : Nat) (h : ms < ISO_MAX) :
    parseInstant (toISOString ms) = some ms := by
  simp only [parseInstant, toISOString, isoChars]
  rw [parseIsoCore_isoBody ms ['Z'] h]
  simp

theorem parseInstant_offset (ms : Nat) (h : ms < ISO_MAX) :
    parseInstant ⟨replaceZ (isoChars ms)⟩ = some ms := by
  simp only [parseInstant, isoChars]
  rw [replaceZ_append (isoBody ms) (isoBody_no_upperZ ms)]
  rw [parseIsoCore_isoBody ms _ h]
  simp

theorem parseKey_keyChars (y m d : Nat) (hy : y < 10000) (hm : m < 100)
    (hd : d < 100) : parseKey ⟨keyChars y m d⟩ = some (y, m, d) := by
  have e := parseDate_pad y m d [] hy hm hd
  simp only [List.append_nil] at e
  have hk : keyChars y m d
      = padDigits 4 y ++ ('-' :: (padDigits 2 m ++ ('-' :: padDigits 2 d))) := by
    simp [keyChars]
  simp [parseKey, hk, e]

/-- C7: two invocations of the window calculator within the same IST
calendar day (equal IST epoch-day numbers) yield the same session-open
instant and the same session key, and the later end instant is not
earlier; an invocation after day rollover (a different IST day, within the
four-digit-year range) yields a different session key and a strictly later
open instant. -/
theorem window_session_stability :
    (∀ t1 t2 : Nat, t1 ≤ t2 → istDayNumber t1 = istDayNumber t2 →
        openUtcMs t1 = openUtcMs t2
          ∧ (computeTodayWindow t1).key = (computeTodayWindow t2).key
          ∧ windowEndMs t1 ≤ windowEndMs t2)
      ∧ (∀ t1 t2 : Nat, t1 ≤ t2 → istDayNumber t1 ≠ istDayNumber t2 →
          t2 + IST_OFFSET_MS < ISO_MAX →
          (computeTodayWindow t1).key ≠ (computeTodayWindow t2).key
            ∧ openUtcMs t1 < openUtcMs t2) := by
  constructor
  · intro t1 t2 hle hday
    refine ⟨?_, ?_, hle⟩
    · rw [openUtcMs_eq, openUtcMs_eq, hday]
    · simp only [computeTodayWindow, istDate, hday]
  · intro t1 t2 hle hne hbound
    have hmono : istDayNumber t1 ≤ istDayNumber t2 := by
      simp only [istDayNumber, IST_OFFSET_MS, MS_PER_DAY]
      omega
    have hlt : istDayNumber t1 < istDayNumber t2 := Nat.lt_of_le_of_ne hmono hne
    have hz2 : istDayNumber t2 < 2932897 := by
      simp only [istDayNumber, IST_OFFSET_MS, MS_PER_DAY, ISO_MAX] at *
      omega
    have hz1 : istDayNumber t1 < 2932897 := Nat.lt_trans hlt hz2
    obtain ⟨hrt1, hyy1, hm11, hm121, hd11, hd311⟩ := civilFromDays_spec (istDayNumber t1)
    obtain ⟨hrt2, hyy2, hm12, hm122, hd12, hd312⟩ := civilFromDays_spec (istDayNumber t2)
    have hy1 := yearFromDay_le (istDayNumber t1) hz1
    have hy2 := yearFromDay_le (istDayNumber t2) hz2
    constructor
    · intro hkey
      simp only [computeTodayWindow] at hkey
      have hkeq : keyChars (istDate t1).1 (istDate t1).2.1 (istDate t1).2.2
          = keyChars (istDate t2).1 (istDate t2).2.1 (istDate t2).2.2 :=
        congrArg String.data hkey
      have hp1 := parseKey_keyChars (istDate t1).1 (istDate t1).2.1 (istDate t1).2.2
        (by simp only [istDate, civilFromDays_fst]; omega)
        (by simp only [istDate]; omega)
        (by simp only [istDate]; omega)
      have hp2 := parseKey_keyChars (istDate t2).1 (istDate t2).2.1 (istDate t2).2.2
        (by simp only [istDate, civilFromDays_fst]; omega)
        (by simp only [istDate]; omega)
        (by simp only [istDate]; omega)
      rw [hkeq] at hp1
      have he : ((istDate t1).1, (istDate t1).2.1, (istDate t1).2.2)
          = ((istDate t2).1, (istDate t2).2.1, (istDate t2).2.2) := by
        have hb := hp1.symm.trans hp2
        simpa using hb
      have hdeq : istDate t1 = istDate t2 := he
      exact hne (civilFromDays_inj _ _ (by simpa [istDate] using hdeq))
    · rw [openUtcMs_eq, openUtcMs_eq]
      simp only [MS_PER_DAY]
      omega

theorem window_session_stability_witness :
    ((0 : Nat) ≤ 10000000 ∧ istDayNumber 0 = istDayNumber 10000000
        ∧ openUtcMs 0 = openUtcMs 10000000
        ∧ (computeTodayWindow 0).key = (computeTodayWindow 10000000).key
        ∧ windowEndMs 0 ≤ windowEndMs 10000000)
      ∧ ((0 : Nat) ≤ 86400000 ∧ istDayNumber 0 ≠ istDayNumber 86400000
          ∧ 86400000 + IST_OFFSET_MS < ISO_MAX
          ∧ (computeTodayWindow 0).key ≠ (computeTodayWindow 86400000).key
          ∧ openUtcMs 0 < openUtcMs 86400000) := by
  constructor
  · have h := window_session_stability.1 0 10000000 (by omega) (by decide)
    exact ⟨by omega, by decide, h.1, h.2.1, h.2.2⟩
  · have h := window_session_stability.2 0 86400000 (by omega) (by decide) (by decide)
    exact ⟨by omega, by decide, by decide, h.1, h.2⟩

/-- C8: for every invocation (within the four-digit-year range), the
window's open instant is 09:15 IST of the current IST calendar day
converted to UTC (equivalently 03:45 UTC of that day, by construction);
the session key parses back as exactly that IST date in `YYYY-MM-DD` form;
and the open and end instants serialized in the `'Z'`-suffixed and the
`'+00:00'`-suffixed conventions all denote the expected instants — in
particular both serializations of each bound denote the same instant. -/
theorem window_serialization (nowMs : Nat) (h : nowMs + IST_OFFSET_MS < ISO_MAX) :
    openUtcMs nowMs
        = istWallToUtc (istDate nowMs).1 (istDate nowMs).2.1 (istDate nowMs).2.2 9 15
      ∧ parseKey (computeTodayWindow nowMs).key = some (istDate nowMs)
      ∧ parseInstant (computeTodayWindow nowMs).fetchFromZ = some (openUtcMs nowMs)
      ∧ parseInstant (computeTodayWindow nowMs).fromOffset = some (openUtcMs nowMs)
      ∧ parseInstant (computeTodayWindow nowMs).fetchToZ = some nowMs
      ∧ parseInstant (computeTodayWindow nowMs).toOffset = some nowMs := by
  have hoff : IST_OFFSET_MS = 19800000 := rfl
  have hznow : nowMs < ISO_MAX := by omega
  have hdn : istDayNumber nowMs < 2932897 := by
    simp only [istDayNumber, IST_OFFSET_MS, MS_PER_DAY, ISO_MAX] at *
    omega
  have hopen : openUtcMs nowMs < ISO_MAX := by
    rw [openUtcMs_eq]
    simp only [MS_PER_DAY, ISO_MAX] at *
    omega
  obtain ⟨hrt, hyy, hm1, hm12, hd1, hd31⟩ := civilFromDays_spec (istDayNumber nowMs)
  have hy := yearFromDay_le (istDayNumber nowMs) hdn
  refine ⟨?_, ?_, ?_, ?_, ?_, ?_⟩
  · simp only [openUtcMs, istWallToUtc, istDate, IST_OFFSET_MS, MS_PER_DAY]
    omega
  · have hk := parseKey_keyChars (istDate nowMs).1 (istDate nowMs).2.1 (istDate nowMs).2.2
      (by simp only [istDate, civilFromDays_fst]; omega)
      (by simp only [istDate]; omega)
      (by simp only [istDate]; omega)
    simp only [computeTodayWindow]
    rw [hk]
  · simp only [computeTodayWindow]
    exact parseInstant_iso _ hopen
  · simp only [computeTodayWindow]
    exact parseInstant_offset _ hopen
  · simp only [computeTodayWindow]
    exact parseInstant_iso _ hznow
  · simp only [computeTodayWindow]
    exact parseInstant_offset _ hznow

theorem window_serialization_witness :
    (1760200000000 : Nat) + IST_OFFSET_MS < ISO_MAX
      ∧ (openUtcMs 1760200000000
            = istWallToUtc (istDate 1760200000000).1 (istDate 1760200000000).2.1
                (istDate 1760200000000).2.2 9 15
          ∧ parseKey (computeTodayWindow 1760200000000).key = some (istDate 1760200000000)
          ∧ parseInstant (computeTodayWindow 1760200000000).fetchFromZ
              = some (openUtcMs 1760200000000)
          ∧ parseInstant (computeTodayWindow 1760200000000).fromOffset
              = some (openUtcMs 1760200000000)
          ∧ parseInstant (computeTodayWindow 1760200000000).fetchToZ = some 1760200000000
          ∧ parseInstant (computeTodayWindow 1760200000000).toOffset = some 1760200000000) :=
  ⟨by decide, window_serialization 1760200000000 (by decide)⟩

theorem tick_throttle_spec_witness :
    ((∀ p ∈ [((1000 : Nat), goodTickMsg), (1400, goodTickMsg), (1499, goodTickMsg)],
        1000 ≤ p.1 ∧ p.1 < 1000 + 500)
        ∧ (acceptTimes initLiveState
            [((1000 : Nat), goodTickMsg), (1400, goodTickMsg), (1499, goodTickMsg)]).length ≤ 1)
      ∧ ((1000 : Nat) ≤ 1000
          ∧ (acceptTimes initLiveState (evenTrace 1000 3)).length = 3) :=
  ⟨⟨by decide, tick_throttle_spec.2.1 _ 1000 (by decide)⟩,
   ⟨by decide, tick_throttle_spec.2.2 1000 3 (by decide)⟩⟩
